import Mathlib

/-!
Shallow embedding of the `consumoDeDadosMetaAPI` repository (files
`app.py` and `idadeGenero.py`) and verification of its specification.

Python values are modelled by the inductive type `PyVal` (with numbers
collapsed to exact rationals, since every IEEE float is an exact dyadic
rational), Python `float(...)` string conversion by a decimal parser
`parseDecCore`, and `str(...)` of a number by the exact decimal printer
`printRat`.  Exceptions are modelled by `Except`/`Option`; a caught
exception corresponds to taking the fallback branch.
-/

/-- The ASCII apostrophe character (code 39), used by Python `repr` of
strings and stripped by the table assembler. -/
def quoteChar : Char := Char.ofNat 39

/-- Characters treated as whitespace by Python `str.strip()` and by the
regex class `\s`. -/
def pySpace (c : Char) : Bool :=
  c = ' ' || c = '\t' || c = '\n' || c = '\r' || c = Char.ofNat 11 || c = Char.ofNat 12

/-- Strip characters satisfying `p` from both ends of a character list
(model of Python `str.strip()` and of the end-anchored `re.sub` calls). -/
def stripEnds (p : Char → Bool) (cs : List Char) : List Char :=
  ((cs.dropWhile p).reverse.dropWhile p).reverse

/-- Python `str.strip()`. -/
def pyStripBoth (cs : List Char) : List Char := stripEnds pySpace cs

/-- The decimal digit character for `d` (`0`–`9`). -/
def digitChar (d : Nat) : Char := Char.ofNat (48 + d)

/-- Numeric value of a digit character. -/
def charVal (c : Char) : Nat := c.toNat - 48

/-- Fuel-bounded digit expansion; the fuel only bounds recursion depth
and is chosen so that it never runs out. -/
def natToCharsFuel : Nat → Nat → List Char
  | 0, _ => []
  | fuel + 1, n =>
    if n < 10 then [digitChar n]
    else natToCharsFuel fuel (n / 10) ++ [digitChar (n % 10)]

/-- Decimal digit characters of `n`, most significant first (model of the
digits produced by Python number formatting). -/
def natToChars (n : Nat) : List Char := natToCharsFuel (n + 1) n

/-- Fold a digit-character list onto an accumulator, base 10. -/
def digitsToNat (acc : Nat) (cs : List Char) : Nat :=
  cs.foldl (fun a c => a * 10 + charVal c) acc

/-- Left-pad a character list with `0` characters to length `k`. -/
def padZeros (k : Nat) (cs : List Char) : List Char :=
  List.replicate (k - cs.length) '0' ++ cs

/-- Split an optional leading minus sign from a numeral. -/
def parseSign (cs : List Char) : Bool × List Char :=
  match cs with
  | c :: rest => if c = '-' then (true, rest) else (false, cs)
  | [] => (false, ([] : List Char))

/-- Parse an unsigned decimal numeral `digits[.digits]`, requiring full
consumption of the input. -/
def parseMag (cs1 : List Char) : Option ℚ :=
  let intCs := cs1.takeWhile Char.isDigit
  let rest1 := cs1.dropWhile Char.isDigit
  if intCs.isEmpty then none
  else
    match rest1 with
    | [] => some ((digitsToNat 0 intCs : ℕ) : ℚ)
    | c :: rest2 =>
      if c = '.' then
        let fracCs := rest2.takeWhile Char.isDigit
        let rest3 := rest2.dropWhile Char.isDigit
        if fracCs.isEmpty || !rest3.isEmpty then none
        else
          some (((digitsToNat 0 intCs * 10 ^ fracCs.length + digitsToNat 0 fracCs : ℕ) : ℚ) /
            ((10 : ℚ) ^ fracCs.length))
      else none

/-- Parse an optionally negated decimal numeral `[-]digits[.digits]`,
requiring full consumption of the input.  This models the common core of
Python `float(...)` and pandas `to_numeric` on already-stripped text. -/
def parseDecCore (cs : List Char) : Option ℚ :=
  let p := parseSign cs
  (parseMag p.2).map (fun v => if p.1 then -v else v)

/-- Exact decimal printing of a rational whose denominator divides a power
of ten (every Python float is such a rational); models `str(x)` for a
float `x` up to numeric round-trip.  Unrepresentable rationals (which
correspond to no float) print as `!`, which no numeric parser accepts. -/
def printRat (q : ℚ) : List Char :=
  if q.den ∣ 10 ^ q.den then
    (if q.num < 0 then ['-'] else []) ++
      natToChars (q.num.natAbs * (10 ^ q.den / q.den) / 10 ^ q.den) ++
      '.' :: padZeros q.den (natToChars (q.num.natAbs * (10 ^ q.den / q.den) % 10 ^ q.den))
  else ['!']

/-- Model of a Python value as it occurs in this program: `None`, a bool,
a number (int and float collapsed to an exact rational), a text string, a
list, or a string-keyed dict.  Dict keys are restricted to strings, which
covers every structure the program manipulates. -/
inductive PyVal where
  | none : PyVal
  | bool (b : Bool) : PyVal
  | num (q : ℚ) : PyVal
  | str (s : String) : PyVal
  | list (xs : List PyVal) : PyVal
  | dict (kvs : List (String × PyVal)) : PyVal

/-- Python truthiness: `None`, `False`, `0`, `""`, `[]` and `{}` are falsy. -/
def pyFalsy : PyVal → Bool
  | .none => true
  | .bool b => !b
  | .num q => q = 0
  | .str s => s.data.isEmpty
  | .list xs => xs.isEmpty
  | .dict kvs => kvs.isEmpty

mutual

/-- Python `repr` (which `str` delegates to for containers):
single-quoted strings, bracketed lists, braced dicts. -/
def pyRepr : PyVal → String
  | .none => "None"
  | .bool true => "True"
  | .bool false => "False"
  | .num q => String.mk (printRat q)
  | .str s => String.mk (quoteChar :: s.data ++ [quoteChar])
  | .list xs => "[" ++ pyReprList xs ++ "]"
  | .dict kvs => "\x7b" ++ pyReprKvs kvs ++ "\x7d"

/-- Comma-separated reprs of list elements. -/
def pyReprList : List PyVal → String
  | [] => ""
  | [x] => pyRepr x
  | x :: y :: xs => pyRepr x ++ ", " ++ pyReprList (y :: xs)

/-- Comma-separated `key: value` reprs of dict entries. -/
def pyReprKvs : List (String × PyVal) → String
  | [] => ""
  | [(k, v)] => String.mk (quoteChar :: k.data ++ [quoteChar]) ++ ": " ++ pyRepr v
  | (k, v) :: e :: kvs =>
      String.mk (quoteChar :: k.data ++ [quoteChar]) ++ ": " ++ pyRepr v ++ ", " ++
        pyReprKvs (e :: kvs)

end

/-- Python `str(...)`: identity on strings, `repr` otherwise. -/
def pyStr : PyVal → String
  | .str s => s
  | v => pyRepr v

mutual

/-- Model of `json.dumps(..., ensure_ascii=False)`: double-quoted strings,
JSON spellings of the scalars. -/
def jsonDumps : PyVal → String
  | .none => "null"
  | .bool true => "true"
  | .bool false => "false"
  | .num q => String.mk (printRat q)
  | .str s => "\"" ++ s ++ "\""
  | .list xs => "[" ++ jsonDumpsList xs ++ "]"
  | .dict kvs => "\x7b" ++ jsonDumpsKvs kvs ++ "\x7d"

/-- Comma-separated JSON serializations of list elements. -/
def jsonDumpsList : List PyVal → String
  | [] => ""
  | [x] => jsonDumps x
  | x :: y :: xs => jsonDumps x ++ ", " ++ jsonDumpsList (y :: xs)

/-- Comma-separated JSON serializations of dict entries. -/
def jsonDumpsKvs : List (String × PyVal) → String
  | [] => ""
  | [(k, v)] => "\"" ++ k ++ "\": " ++ jsonDumps v
  | (k, v) :: e :: kvs => "\"" ++ k ++ "\": " ++ jsonDumps v ++ ", " ++ jsonDumpsKvs (e :: kvs)

end

/-- Lookup of a string key in a dict's entry list (first match, as in
Python dicts where keys are unique). -/
def dictGet (kvs : List (String × PyVal)) (k : String) : Option PyVal :=
  match kvs with
  | [] => Option.none
  | (k2, v) :: rest => if k2 = k then some v else dictGet rest k

mutual

/-- Model of CPython literal parsing (`ast.literal_eval`) on the grammar
this program can receive: `None`/`True`/`False`, decimal int and float
numerals, single- or double-quoted strings without escapes, lists, and
dicts with string keys.  Anything else is a parse error, as
`literal_eval` raises on non-literal input.  `fuel` only bounds recursion
depth and is chosen larger than the input length. -/
def parseLit : Nat → List Char → Except Unit (PyVal × List Char)
  | 0, _ => .error ()
  | fuel + 1, cs0 =>
    let cs := cs0.dropWhile pySpace
    match cs with
    | [] => .error ()
    | c :: rest =>
      if c = quoteChar || c = '"' then
        let body := rest.takeWhile (fun d => d ≠ c)
        match rest.dropWhile (fun d => d ≠ c) with
        | _ :: rest2 => .ok (.str (String.mk body), rest2)
        | [] => .error ()
      else if c = '[' then
        parseElems fuel (rest.dropWhile pySpace)
      else if c = '\x7b' then
        parseEntries fuel (rest.dropWhile pySpace)
      else if c = '-' || c.isDigit then
        let (neg, cs1) := if c = '-' then (true, rest) else (false, cs)
        let ds := cs1.takeWhile Char.isDigit
        let rest1 := cs1.dropWhile Char.isDigit
        if ds.isEmpty then .error ()
        else
          match rest1 with
          | '.' :: rest2 =>
            let fs := rest2.takeWhile Char.isDigit
            let rest3 := rest2.dropWhile Char.isDigit
            let m : ℕ := digitsToNat 0 ds * 10 ^ fs.length + digitsToNat 0 fs
            let v : ℚ := (m : ℚ) / ((10 : ℚ) ^ fs.length)
            .ok (.num (if neg then -v else v), rest3)
          | _ =>
            let v : ℚ := (digitsToNat 0 ds : ℕ)
            .ok (.num (if neg then -v else v), rest1)
      else if cs.take 4 = "None".data then .ok (.none, cs.drop 4)
      else if cs.take 4 = "True".data then .ok (.bool true, cs.drop 4)
      else if cs.take 5 = "False".data then .ok (.bool false, cs.drop 5)
      else .error ()

/-- Parse the remainder of a list literal after `[` (and spaces). -/
def parseElems : Nat → List Char → Except Unit (PyVal × List Char)
  | 0, _ => .error ()
  | fuel + 1, cs =>
    match cs with
    | ']' :: rest => .ok (.list [], rest)
    | _ =>
      match parseLit fuel cs with
      | .error _ => .error ()
      | .ok (v, rest) =>
        match rest.dropWhile pySpace with
        | ',' :: rest2 =>
          match parseElems fuel (rest2.dropWhile pySpace) with
          | .ok (.list xs, rest3) => .ok (.list (v :: xs), rest3)
          | _ => .error ()
        | ']' :: rest2 => .ok (.list [v], rest2)
        | _ => .error ()

/-- Parse the remainder of a dict literal after the opening brace (and
spaces); keys must be quoted strings. -/
def parseEntries : Nat → List Char → Except Unit (PyVal × List Char)
  | 0, _ => .error ()
  | fuel + 1, cs =>
    match cs with
    | '\x7d' :: rest => .ok (.dict [], rest)
    | _ =>
      match parseLit fuel cs with
      | .error _ => .error ()
      | .ok (.str k, rest) =>
        match rest.dropWhile pySpace with
        | ':' :: rest2 =>
          match parseLit fuel (rest2.dropWhile pySpace) with
          | .error _ => .error ()
          | .ok (v, rest3) =>
            match rest3.dropWhile pySpace with
            | ',' :: rest4 =>
              match parseEntries fuel (rest4.dropWhile pySpace) with
              | .ok (.dict kvs, rest5) => .ok (.dict ((k, v) :: kvs), rest5)
              | _ => .error ()
            | '\x7d' :: rest4 => .ok (.dict [(k, v)], rest4)
            | _ => .error ()
        | _ => .error ()
      | .ok _ => .error ()

end

/-- Model of `ast.literal_eval` on a whole string: parse one literal and
require that only whitespace remains. -/
def literalEval (s : String) : Except Unit PyVal :=
  match parseLit (s.data.length + 2) s.data with
  | .error _ => .error ()
  | .ok (v, rest) => if (rest.dropWhile pySpace).isEmpty then .ok v else .error ()

/-- The shared inner conversion attempt
`float(str(val).replace(",", "."))`, returning the raw value when the
conversion fails (the `except: return val` branch of both variants). -/
def floatOfComma (val : PyVal) : PyVal :=
  match parseDecCore (pyStripBoth ((pyStr val).data.map (fun c => if c = ',' then '.' else c))) with
  | some q => .num q
  | Option.none => val

/-- The indicator-list extraction chain shared by both variants: first
list element, its `values` entry, that sequence's first element, its
`value` entry, then numeric conversion.  Every Python error raised along
the chain (`TypeError` from `in`, `AttributeError` from `.get`,
`KeyError` from indexing) is caught by the enclosing `except` and yields
`None`, which this function returns directly at the corresponding
branch. -/
def extractFromParsed (f : PyVal) : PyVal :=
  match f with
  | .list (x :: _) =>
    match x with
    | .dict kvs =>
      match dictGet kvs "values" with
      | some (.list (v0 :: _)) =>
        let val :=
          match v0 with
          | .dict kvs2 => (dictGet kvs2 "value").getD .none
          | _ => PyVal.none
        floatOfComma val
      | _ => .none
    | _ => .none
  | _ => .none

/-- `extract_numeric_value` of `app.py` (lines 28-46): a string input is
passed through `ast.literal_eval` (a parse error is caught by the outer
`except` and yields `None`), then the indicator chain is applied. -/
def extract_numeric_value_app (field : PyVal) : PyVal :=
  match (match field with | .str s => literalEval s | v => Except.ok v) with
  | .error _ => .none
  | .ok f => extractFromParsed f

/-- `extract_numeric_value` of `idadeGenero.py` (lines 76-104): falsy or
blank-printing input returns `None`; a string input is end-stripped of
`$` and whitespace (the `[$$\s]` regex character classes) and parsed as a
literal, a parse failure returning `None`; then the indicator chain. -/
def extract_numeric_value_idg (field : PyVal) : PyVal :=
  if pyFalsy field || (pyStripBoth (pyStr field).data).isEmpty then .none
  else
    let valueStr := stripEnds (fun c => c = '$' || pySpace c) (pyStripBoth (pyStr field).data)
    match field with
    | .str _ =>
      if valueStr.isEmpty then extractFromParsed field
      else
        match literalEval (String.mk valueStr) with
        | .error _ => .none
        | .ok obj => extractFromParsed obj
    | _ => extractFromParsed field

/-- Python `float(...)` applied to a value: numbers pass through, bools
become 0 or 1, strings are stripped and parsed; anything else raises
(modelled as `none`). -/
def pyFloat (v : PyVal) : Option ℚ :=
  match v with
  | .num q => some q
  | .bool b => some (if b then 1 else 0)
  | .str s => parseDecCore (pyStripBoth s.data)
  | _ => Option.none

/-- Python `x or 0`: a falsy value is replaced by `0`. -/
def orZero (v : PyVal) : PyVal := if pyFalsy v then .num 0 else v

/-- Round to nearest integer, ties to even — the rounding Python's
built-in `round` uses. -/
def roundHalfEven (x : ℚ) : ℤ :=
  if x - ⌊x⌋ < 1/2 then ⌊x⌋
  else if 1/2 < x - ⌊x⌋ then ⌊x⌋ + 1
  else if ⌊x⌋ % 2 = 0 then ⌊x⌋ else ⌊x⌋ + 1

/-- Python `round(x, 2)`. -/
def round2 (x : ℚ) : ℚ := (roundHalfEven (x * 100) : ℤ) / 100

/-- A row: a Python dict from field names to values. -/
abbrev Row := List (String × PyVal)

/-- `calcular_cliques` of `idadeGenero.py` (lines 106-115): read `spend`
and `cpc` via `float(row.get(k, 0) or 0)`; any conversion error is
caught and yields `0`; otherwise `round(spend / cpc, 2)` when `cpc > 0`,
else `0`. -/
def calcular_cliques (row : Row) : ℚ :=
  match pyFloat (orZero ((dictGet row "spend").getD (.num 0))) with
  | Option.none => 0
  | some spend =>
    match pyFloat (orZero ((dictGet row "cpc").getD (.num 0))) with
    | Option.none => 0
    | some cpc => if 0 < cpc then round2 (spend / cpc) else 0

/-- Gregorian leap-year rule, as used by Python `datetime`. -/
def isLeap (y : Nat) : Bool := ((y % 4 == 0) && (y % 100 != 0)) || (y % 400 == 0)

/-- Number of days of month `m` of year `y` in the proleptic Gregorian
calendar of Python `datetime`. -/
def daysInMonth (y m : Nat) : Nat :=
  if m = 2 then (if isLeap y then 29 else 28)
  else if m = 4 ∨ m = 6 ∨ m = 9 ∨ m = 11 then 30 else 31

/-- Model of `datetime(y, m, d) - timedelta(days=1)` as used by the
period generator (always called with `d = 1`). -/
def prevDay (y m d : Nat) : Nat × Nat × Nat :=
  if 1 < d then (y, m, d - 1)
  else if 1 < m then (y, m - 1, daysInMonth y (m - 1))
  else (y - 1, 12, 31)

/-- Model of `strftime("%Y-%m-%d")`: zero-padded 4-digit year, 2-digit
month and day. -/
def fmtDate (y m d : Nat) : String :=
  String.mk (padZeros 4 (natToChars y) ++ '-' :: (padZeros 2 (natToChars m) ++ '-' :: padZeros 2 (natToChars d)))

/-- One `{since, until}` date-range dict produced by the period
generator. -/
structure Period where
  since : String
  «until» : String
deriving DecidableEq

/-- `get_month_ranges` of both files: for each month 1-12, `since` is the
first of the month and `until` is the first of the next month minus one
day, both formatted `%Y-%m-%d`. -/
def get_month_ranges (year : Nat) : List Period :=
  (List.range 12).map (fun i =>
    let month := i + 1
    let last := if month = 12 then prevDay (year + 1) 1 1 else prevDay year (month + 1) 1
    { since := fmtDate year month 1, «until» := fmtDate last.1 last.2.1 last.2.2 })

/-- A campaign as returned by the campaign fetch: an id and a name. -/
structure Campaign where
  id : String
  name : String

/-- The insight post-processing of the inner loop: add the campaign name
when the insight lacks one. -/
def ensureName (name : String) (r : Row) : Row :=
  match dictGet r "campaign_name" with
  | some _ => r
  | Option.none => r ++ [("campaign_name", PyVal.str name)]

/-- The inner campaign loop of `get_all_data`, threading the accumulated
`all_rows` list: a failing insights fetch raises out of the loop to the
period-level `except`, which leaves the rows appended so far in place. -/
def campaignsLoop (fi : String → String → String → Except String (List Row))
    (since untl : String) : List Campaign → List Row → List Row
  | [], acc => acc
  | c :: cs, acc =>
    match fi c.id since untl with
    | .error _ => acc
    | .ok ins => campaignsLoop fi since untl cs (acc ++ ins.map (ensureName c.name))

/-- One iteration of the period loop of `get_all_data`: the `try` block
fetches campaigns and their insights; any exception is caught and the
loop continues with the rows accumulated so far. -/
def periodStep (fc : String → String → Except String (List Campaign))
    (fi : String → String → String → Except String (List Row))
    (acc : List Row) (p : Period) : List Row :=
  match fc p.since p.«until» with
  | .error _ => acc
  | .ok camps => campaignsLoop fi p.since p.«until» camps acc

/-- `get_all_data` of both files, with the two network calls passed in as
oracles that either return parsed `data` or raise. -/
def get_all_data (fc : String → String → Except String (List Campaign))
    (fi : String → String → String → Except String (List Row)) (year : Nat) : List Row :=
  (get_month_ranges year).foldl (periodStep fc fi) []

/-- A column-oriented table: the pandas DataFrame built from the rows,
as a list of (column name, cells). -/
abbrev Table := List (String × List PyVal)

/-- The numeric-column list of `app.py` (line 127). -/
def colsNumericasApp : List String :=
  ["reach", "impressions", "frequency", "spend", "cpm", "cpc"]

/-- The numeric-column list of `idadeGenero.py` (line 152). -/
def colsNumericasIdg : List String :=
  ["reach", "impressions", "frequency", "spend", "cpm", "cpc", "results_value",
    "cost_per_result_value"]

/-- One cell of `df[col].astype(str).str.replace("'", "")` followed by
`pd.to_numeric(..., errors='coerce')`: stringify, drop apostrophes,
parse; an unparseable cell becomes NaN (modelled as `.none`). -/
def toNumericCoerce (v : PyVal) : PyVal :=
  match parseDecCore (pyStripBoth ((pyStr v).data.filter (fun c => c ≠ quoteChar))) with
  | some q => .num q
  | Option.none => .none

/-- One cell of `df.replace({np.nan: fill})`. -/
def replaceNan (fill : PyVal) (v : PyVal) : PyVal :=
  match v with
  | .none => fill
  | w => w

/-- One cell of the `json.dumps` pass: serialize dict/list cells, leave
scalars alone. -/
def dumpsObjs (v : PyVal) : PyVal :=
  match v with
  | .list _ => .str (jsonDumps v)
  | .dict _ => .str (jsonDumps v)
  | w => w

/-- Apply a cell transformation to every column of the table. -/
def passMap (f : PyVal → PyVal) (t : Table) : Table :=
  t.map (fun col => (col.1, col.2.map f))

/-- The numeric-coercion pass: only the designated numeric columns are
stringified, apostrophe-stripped and coerced. -/
def passNumeric (numCols : List String) (t : Table) : Table :=
  t.map (fun col => (col.1, if col.1 ∈ numCols then col.2.map toNumericCoerce else col.2))

/-- The pure DataFrame transformation inside `upload_to_google_sheets`
(both files), between `sheet.clear()` and `sheet.update(...)`: numeric
coercion over the designated columns, NaN replacement with the variant's
fill value, JSON serialization of structured cells, and a final NaN
replacement with the empty string. -/
def upload_transform (numCols : List String) (fill : PyVal) (t : Table) : Table :=
  passMap (replaceNan (.str "")) (passMap dumpsObjs (passMap (replaceNan fill) (passNumeric numCols t)))

/-- The composite per-cell transformation applied to a numeric column by
`upload_to_google_sheets`. -/
def cellNum (fill : PyVal) (v : PyVal) : PyVal :=
  replaceNan (.str "") (dumpsObjs (replaceNan fill (toNumericCoerce v)))

/-- The composite per-cell transformation applied to a non-numeric column
by `upload_to_google_sheets`. -/
def cellOth (fill : PyVal) (v : PyVal) : PyVal :=
  replaceNan (.str "") (dumpsObjs (replaceNan fill v))

/-- The `app.py` variant (lines 125-142): fill value `""`. -/
def upload_transform_app (t : Table) : Table :=
  upload_transform colsNumericasApp (.str "") t

/-- The `idadeGenero.py` variant (lines 150-167): fill value `0`. -/
def upload_transform_idg (t : Table) : Table :=
  upload_transform colsNumericasIdg (.num 0) t

/-- Parse a `YYYY-MM-DD` string back into a (year, month, day) triple:
maximal digit runs separated by single non-digit characters. -/
def parseDate (s : String) : Nat × Nat × Nat :=
  let cs := s.data
  let y := cs.takeWhile Char.isDigit
  let rest := (cs.dropWhile Char.isDigit).drop 1
  let m := rest.takeWhile Char.isDigit
  let rest2 := (rest.dropWhile Char.isDigit).drop 1
  let d := rest2.takeWhile Char.isDigit
  (digitsToNat 0 y, digitsToNat 0 m, digitsToNat 0 d)

/-- Calendar successor of a (year, month, day) triple. -/
def nextDay (t : Nat × Nat × Nat) : Nat × Nat × Nat :=
  if t.2.2 < daysInMonth t.1 t.2.1 then (t.1, t.2.1, t.2.2 + 1)
  else if t.2.1 < 12 then (t.1, t.2.1 + 1, 1) else (t.1 + 1, 1, 1)

/-- The specification's reading of a row field "as a number, defaulting
to 0 when absent or non-numeric". -/
def readNum (row : Row) (k : String) : ℚ :=
  (pyFloat ((dictGet row k).getD (.num 0))).getD 0

/-- The specification's per-cell numeric coercion for the
`idadeGenero.py` table assembler: strip residual quotes, coerce to a
number, fill with `0` on failure. -/
def coerceIdg (v : PyVal) : PyVal :=
  match parseDecCore (pyStripBoth ((pyStr v).data.filter (fun c => c ≠ quoteChar))) with
  | some q => .num q
  | Option.none => .num 0

/-- The specification's per-cell numeric coercion for the `app.py` table
assembler: fill with `""` on failure. -/
def coerceApp (v : PyVal) : PyVal :=
  match parseDecCore (pyStripBoth ((pyStr v).data.filter (fun c => c ≠ quoteChar))) with
  | some q => .num q
  | Option.none => .str ""

/-- A concrete campaign-fetch oracle: every period has two campaigns. -/
def fcX : String → String → Except String (List Campaign) :=
  fun _ _ => .ok [⟨"c1", "n1"⟩, ⟨"c2", "n2"⟩]

/-- A concrete insights-fetch oracle: campaign `c1` returns one insight
row, the fetch for campaign `c2` raises. -/
def fiX : String → String → String → Except String (List Row) :=
  fun cid _ _ => if cid = "c1" then .ok [[]] else .error "boom"

theorem charVal_digitChar : ∀ d, d < 10 → charVal (digitChar d) = d := by decide

theorem isDigit_digitChar : ∀ d, d < 10 → (digitChar d).isDigit = true := by decide

theorem natToCharsFuel_congr (n : ℕ) : ∀ f1 f2, 1 ≤ f1 → 1 ≤ f2 → n < 10 ^ f1 → n < 10 ^ f2 →
    natToCharsFuel f1 n = natToCharsFuel f2 n := by
  induction n using Nat.strong_induction_on with
  | _ n ih =>
    intro f1 f2 hf1 hf2 h1 h2
    match f1, f2 with
    | 0, _ => omega
    | _, 0 => omega
    | g1 + 1, g2 + 1 =>
      rw [natToCharsFuel, natToCharsFuel]
      split
      · rfl
      · rename_i hge
        congr 1
        have hd1 : n / 10 < 10 ^ g1 := by
          rw [pow_succ] at h1
          omega
        have hd2 : n / 10 < 10 ^ g2 := by
          rw [pow_succ] at h2
          omega
        have hg1 : 1 ≤ g1 := by
          by_contra hcon
          interval_cases g1
          simp at hd1
          omega
        have hg2 : 1 ≤ g2 := by
          by_contra hcon
          interval_cases g2
          simp at hd2
          omega
        exact ih (n / 10) (Nat.div_lt_self (by omega) (by omega)) g1 g2 hg1 hg2 hd1 hd2

theorem natToChars_unfold (n : ℕ) :
    natToChars n = if n < 10 then [digitChar n] else natToChars (n / 10) ++ [digitChar (n % 10)] := by
  have hself : ∀ m : ℕ, m < 10 ^ (m + 1) := by
    intro m
    calc m < 10 ^ m := Nat.lt_pow_self (by omega) m
    _ ≤ 10 ^ (m + 1) := Nat.pow_le_pow_right (by omega) (by omega)
  rw [natToChars, natToCharsFuel]
  split
  · rfl
  · congr 1
    rw [natToChars]
    apply natToCharsFuel_congr
    · omega
    · omega
    · have := hself n
      rw [pow_succ] at this
      omega
    · exact hself (n / 10)

theorem natToChars_ne_nil (n : ℕ) : natToChars n ≠ [] := by
  rw [natToChars_unfold]
  split <;> simp

theorem natToChars_digits (n : ℕ) : ∀ c ∈ natToChars n, c.isDigit = true := by
  induction n using Nat.strong_induction_on with
  | _ n ih =>
    rw [natToChars_unfold]
    split
    · intro c hc
      simp only [List.mem_singleton] at hc
      subst hc
      exact isDigit_digitChar n (by omega)
    · intro c hc
      rcases List.mem_append.mp hc with h | h
      · exact ih (n / 10) (Nat.div_lt_self (by omega) (by omega)) c h
      · simp only [List.mem_singleton] at h
        subst h
        exact isDigit_digitChar (n % 10) (Nat.mod_lt _ (by omega))

theorem digitsToNat_append (acc : ℕ) (xs ys : List Char) :
    digitsToNat acc (xs ++ ys) = digitsToNat (digitsToNat acc xs) ys := by
  simp [digitsToNat, List.foldl_append]

theorem digitsToNat_natToChars (n : ℕ) : ∀ acc,
    digitsToNat acc (natToChars n) = acc * 10 ^ (natToChars n).length + n := by
  induction n using Nat.strong_induction_on with
  | _ n ih =>
    intro acc
    rw [natToChars_unfold]
    split
    · simp [digitsToNat, charVal_digitChar n (by omega)]
    · rename_i h
      rw [digitsToNat_append, List.length_append]
      have hlt : n / 10 < n := Nat.div_lt_self (by omega) (by omega)
      rw [ih (n / 10) hlt]
      simp only [digitsToNat, List.foldl_cons, List.foldl_nil, List.length_singleton]
      rw [charVal_digitChar (n % 10) (Nat.mod_lt _ (by omega))]
      rw [pow_succ]
      have := Nat.div_add_mod n 10
      ring_nf
      omega

theorem digitsToNat_natToChars_zero (n : ℕ) : digitsToNat 0 (natToChars n) = n := by
  rw [digitsToNat_natToChars]
  omega

theorem natToChars_length_le (n k : ℕ) (hk : 1 ≤ k) (hn : n < 10 ^ k) :
    (natToChars n).length ≤ k := by
  induction n using Nat.strong_induction_on generalizing k with
  | _ n ih =>
    rw [natToChars_unfold]
    split
    · simpa using hk
    · rename_i h
      rw [List.length_append]
      simp only [List.length_singleton]
      have hk2 : 2 ≤ k := by
        by_contra hcon
        interval_cases k
        omega
      have : n / 10 < 10 ^ (k - 1) := by
        have h10 : 10 ^ k = 10 ^ (k - 1) * 10 := by
          rw [← pow_succ]
          congr 1
          omega
        rw [h10] at hn
        omega
      have := ih (n / 10) (Nat.div_lt_self (by omega) (by omega)) (k - 1) (by omega) this
      omega

theorem digitsToNat_replicate_zero (acc z : ℕ) :
    digitsToNat acc (List.replicate z '0') = acc * 10 ^ z := by
  induction z generalizing acc with
  | zero => simp [digitsToNat]
  | succ z ih =>
    rw [List.replicate_succ]
    simp only [digitsToNat, List.foldl_cons] at ih ⊢
    rw [ih]
    have : charVal '0' = 0 := by decide
    rw [this, pow_succ]
    ring

theorem digitsToNat_padZeros (k : ℕ) (cs : List Char) :
    digitsToNat 0 (padZeros k cs) = digitsToNat 0 cs := by
  rw [padZeros, digitsToNat_append, digitsToNat_replicate_zero]
  simp

theorem padZeros_length (k : ℕ) (cs : List Char) (h : cs.length ≤ k) :
    (padZeros k cs).length = k := by
  simp [padZeros]
  omega

theorem padZeros_digits (k : ℕ) (cs : List Char) (h : ∀ c ∈ cs, c.isDigit = true) :
    ∀ c ∈ padZeros k cs, c.isDigit = true := by
  intro c hc
  rcases List.mem_append.mp hc with hm | hm
  · have := List.eq_of_mem_replicate hm
    subst this
    decide
  · exact h c hm

theorem takeWhile_append_stop (p : Char → Bool) (A B : List Char) (b : Char)
    (hA : ∀ c ∈ A, p c = true) (hb : p b = false) :
    (A ++ b :: B).takeWhile p = A := by
  induction A with
  | nil => simp [List.takeWhile, hb]
  | cons a A ih =>
    have ha := hA a (by simp)
    simp only [List.cons_append, List.takeWhile, ha, List.append_eq]
    rw [ih (fun c hc => hA c (by simp [hc]))]

theorem dropWhile_append_stop (p : Char → Bool) (A B : List Char) (b : Char)
    (hA : ∀ c ∈ A, p c = true) (hb : p b = false) :
    (A ++ b :: B).dropWhile p = b :: B := by
  induction A with
  | nil => simp [List.dropWhile, hb]
  | cons a A ih =>
    have ha := hA a (by simp)
    simp only [List.cons_append, List.dropWhile, ha, List.append_eq]
    exact ih (fun c hc => hA c (by simp [hc]))

theorem takeWhile_all (p : Char → Bool) (A : List Char) (hA : ∀ c ∈ A, p c = true) :
    A.takeWhile p = A := by
  induction A with
  | nil => simp
  | cons a A ih =>
    have ha := hA a (by simp)
    simp only [List.takeWhile, ha]
    rw [ih (fun c hc => hA c (by simp [hc]))]

theorem dropWhile_all (p : Char → Bool) (A : List Char) (hA : ∀ c ∈ A, p c = true) :
    A.dropWhile p = [] := by
  induction A with
  | nil => simp
  | cons a A ih =>
    have ha := hA a (by simp)
    simp only [List.dropWhile, ha]
    exact ih (fun c hc => hA c (by simp [hc]))

theorem dropWhile_none (p : Char → Bool) (A : List Char) (hA : ∀ c ∈ A, p c = false) :
    A.dropWhile p = A := by
  cases A with
  | nil => simp
  | cons a A => simp [List.dropWhile, hA a (by simp)]

theorem stripEnds_no_op (p : Char → Bool) (A : List Char) (hA : ∀ c ∈ A, p c = false) :
    stripEnds p A = A := by
  rw [stripEnds, dropWhile_none p A hA, dropWhile_none, List.reverse_reverse]
  intro c hc
  exact hA c (List.mem_reverse.mp hc)

theorem printRat_chars (q : ℚ) :
    ∀ c ∈ printRat q, c.isDigit = true ∨ c = '-' ∨ c = '.' ∨ c = '!' := by
  rw [printRat]
  split
  · intro c hc
    simp only [List.append_assoc, List.mem_append, List.mem_cons] at hc
    rcases hc with h | h | h | h
    · right
      left
      split at h <;> simp_all
    · exact Or.inl (natToChars_digits _ c h)
    · simp [h]
    · exact Or.inl (padZeros_digits _ _ (natToChars_digits _) c h)
  · intro c hc
    simp only [List.mem_singleton] at hc
    simp [hc]

theorem isDigit_not_space {c : Char} (h : c.isDigit = true) : pySpace c = false := by
  rw [pySpace]
  by_contra hcon
  simp only [Bool.or_eq_true, decide_eq_true_eq, Bool.not_eq_false] at hcon
  rcases hcon with ((((h1 | h1) | h1) | h1) | h1) | h1 <;> (subst h1; revert h; decide)

theorem isDigit_not_quote {c : Char} (h : c.isDigit = true) : c ≠ quoteChar := by
  intro hcon
  subst hcon
  revert h
  decide

theorem isDigit_not_comma {c : Char} (h : c.isDigit = true) : c ≠ ',' := by
  intro hcon
  subst hcon
  revert h
  decide

theorem printRat_not_space (q : ℚ) : ∀ c ∈ printRat q, pySpace c = false := by
  intro c hc
  rcases printRat_chars q c hc with h | h | h | h
  · exact isDigit_not_space h
  all_goals (subst h; decide)

theorem printRat_not_quote (q : ℚ) : ∀ c ∈ printRat q, c ≠ quoteChar := by
  intro c hc
  rcases printRat_chars q c hc with h | h | h | h
  · exact isDigit_not_quote h
  all_goals (subst h; decide)

theorem printRat_not_comma (q : ℚ) : ∀ c ∈ printRat q, c ≠ ',' := by
  intro c hc
  rcases printRat_chars q c hc with h | h | h | h
  · exact isDigit_not_comma h
  all_goals (subst h; decide)

theorem printRat_ne_nil (q : ℚ) : printRat q ≠ [] := by
  rw [printRat]
  split
  · intro hcon
    rcases List.append_eq_nil.mp hcon with ⟨h1, h2⟩
    simp at h2
  · simp

theorem dvd_ten_pow (k : ℕ) : ∀ d, d ∣ 10 ^ k → d ∣ 10 ^ d := by
  intro d
  induction d using Nat.strong_induction_on with
  | _ d ih =>
    intro hd
    rcases Nat.eq_zero_or_pos d with h0 | h0
    · subst h0
      have : (10 : ℕ) ^ k ≠ 0 := by positivity
      omega
    rcases Nat.eq_or_lt_of_le h0 with h1 | h1
    · rw [← h1]
      exact one_dvd _
    obtain ⟨p, hp, hpd⟩ := Nat.exists_prime_and_dvd (by omega : d ≠ 1)
    have hp10 : p ∣ 10 := hp.dvd_of_dvd_pow (hpd.trans hd)
    have hdp : d / p ∣ 10 ^ k := (Nat.div_dvd_of_dvd hpd).trans hd
    have hplt : d / p < d := Nat.div_lt_self (by omega) hp.two_le
    have ihd : d / p ∣ 10 ^ (d / p) := ih (d / p) hplt hdp
    have hdeq : d = p * (d / p) := (Nat.mul_div_cancel' hpd).symm
    have hstep : d ∣ 10 ^ (d / p + 1) := by
      have h2 : p * (d / p) ∣ 10 * 10 ^ (d / p) := mul_dvd_mul hp10 ihd
      have h3 : d ∣ 10 * 10 ^ (d / p) := (dvd_of_eq hdeq).trans h2
      rw [pow_succ, mul_comm (10 ^ (d / p)) 10]
      exact h3
    have hle : d / p + 1 ≤ d := by
      have : d / p ≤ d / 2 := Nat.div_le_div_left hp.two_le (by omega)
      have : d / 2 < d := Nat.div_lt_self (by omega) (by omega)
      omega
    exact hstep.trans (pow_dvd_pow 10 hle)

theorem isDigit_not_dash {c : Char} (h : c.isDigit = true) : c ≠ '-' := by
  intro hcon
  subst hcon
  revert h
  decide

theorem den_div_pow_dvd (m fl : ℕ) : (((m : ℚ)) / ((10 : ℚ) ^ fl)).den ∣ 10 ^ fl := by
  have h1 : ((m : ℚ)) / ((10 : ℚ) ^ fl) = Rat.divInt (m : ℤ) ((10 : ℤ) ^ fl) := by
    rw [Rat.divInt_eq_div]
    push_cast
    ring
  rw [h1]
  have h2 := Rat.den_dvd (m : ℤ) ((10 : ℤ) ^ fl)
  have h3 : ((Rat.divInt (m : ℤ) ((10 : ℤ) ^ fl)).den : ℤ) ∣ ((10 ^ fl : ℕ) : ℤ) := by
    push_cast
    exact h2
  exact_mod_cast h3

theorem parseMag_den_dvd (cs1 : List Char) (v : ℚ) (h : parseMag cs1 = some v) :
    ∃ fl, v.den ∣ 10 ^ fl := by
  simp only [parseMag] at h
  split at h
  · exact absurd h (by simp)
  · split at h
    · refine ⟨1, ?_⟩
      have hv := Option.some.inj h
      rw [← hv]
      simp
    · split at h
      · split at h
        · exact absurd h (by simp)
        · have hv := Option.some.inj h
          rw [← hv]
          exact ⟨_, den_div_pow_dvd _ _⟩
      · exact absurd h (by simp)

theorem parseDecCore_den_dvd (cs : List Char) (q : ℚ) (h : parseDecCore cs = some q) :
    q.den ∣ 10 ^ q.den := by
  simp only [parseDecCore, Option.map_eq_some'] at h
  obtain ⟨v, hv, hq⟩ := h
  obtain ⟨fl, hfl⟩ := parseMag_den_dvd _ _ hv
  have hden : q.den = v.den := by
    rw [← hq]
    split <;> simp
  rw [hden]
  exact dvd_ten_pow fl _ hfl

theorem parseMag_digits (a m e : ℕ) (he : 1 ≤ e) (hm : m < 10 ^ e) :
    parseMag (natToChars a ++ '.' :: padZeros e (natToChars m)) =
      some (((a * 10 ^ e + m : ℕ) : ℚ) / ((10 : ℚ) ^ e)) := by
  have hdot : ('.').isDigit = false := by decide
  have hA := natToChars_digits a
  have hpad := padZeros_digits e _ (natToChars_digits m)
  have hlen : (padZeros e (natToChars m)).length = e :=
    padZeros_length _ _ (natToChars_length_le m e he hm)
  have htw := takeWhile_append_stop Char.isDigit (natToChars a) (padZeros e (natToChars m)) '.' hA hdot
  have hdw := dropWhile_append_stop Char.isDigit (natToChars a) (padZeros e (natToChars m)) '.' hA hdot
  have hpe : (padZeros e (natToChars m)).isEmpty = false := by
    cases hcase : padZeros e (natToChars m) with
    | nil =>
      rw [hcase] at hlen
      simp at hlen
      omega
    | cons x xs => simp
  simp only [parseMag, htw, hdw]
  rw [if_pos trivial]
  rw [takeWhile_all _ _ hpad, dropWhile_all _ _ hpad]
  rw [digitsToNat_natToChars_zero, digitsToNat_padZeros, digitsToNat_natToChars_zero, hlen]
  rw [hpe]
  simp
  exact natToChars_ne_nil a

theorem parseSign_dash (X : List Char) : parseSign ('-' :: X) = (true, X) := by
  simp [parseSign]

theorem parseSign_not_dash (c : Char) (X : List Char) (hc : c ≠ '-') :
    parseSign (c :: X) = (false, c :: X) := by
  simp [parseSign, hc]

theorem parseDecCore_printRat (q : ℚ) (hq : q.den ∣ 10 ^ q.den) :
    parseDecCore (printRat q) = some q := by
  have hden_pos : 0 < q.den := q.pos
  have he : 1 ≤ q.den := hden_pos
  have hpow_pos : 0 < 10 ^ q.den := by positivity
  rw [printRat, if_pos hq]
  have hm : q.num.natAbs * (10 ^ q.den / q.den) % 10 ^ q.den < 10 ^ q.den :=
    Nat.mod_lt _ hpow_pos
  have hmain := parseMag_digits (q.num.natAbs * (10 ^ q.den / q.den) / 10 ^ q.den)
    (q.num.natAbs * (10 ^ q.den / q.den) % 10 ^ q.den) q.den he hm
  rw [Nat.div_add_mod'] at hmain
  have h1 : ((10 : ℚ)) ^ q.den ≠ 0 := by positivity
  have h2 : ((q.den : ℚ)) ≠ 0 := Nat.cast_ne_zero.mpr hden_pos.ne'
  have hcast : ((10 ^ q.den / q.den : ℕ) : ℚ) = (10 : ℚ) ^ q.den / (q.den : ℚ) := by
    rw [Nat.cast_div hq h2]
    push_cast
    ring
  have hval : ((q.num.natAbs * (10 ^ q.den / q.den) : ℕ) : ℚ) / (10 : ℚ) ^ q.den =
      (q.num.natAbs : ℚ) / (q.den : ℚ) := by
    rw [Nat.cast_mul, hcast]
    field_simp
    ring
  rcases lt_or_le q.num 0 with hneg | hpos
  · rw [if_pos hneg, List.singleton_append, List.cons_append]
    rw [parseDecCore, parseSign_dash]
    simp only [hmain, hval, Option.map_some', if_pos]
    rw [Int.cast_natAbs, abs_of_neg hneg]
    push_cast
    rw [neg_div, neg_neg, Rat.num_div_den]
  · rw [if_neg (not_lt.mpr hpos), List.nil_append]
    obtain ⟨c, cs2, hcc⟩ :=
      List.exists_cons_of_ne_nil (natToChars_ne_nil (q.num.natAbs * (10 ^ q.den / q.den) / 10 ^ q.den))
    rw [parseDecCore, hcc, List.cons_append,
      parseSign_not_dash c _ (isDigit_not_dash (natToChars_digits _ c (by rw [hcc]; simp))),
      ← List.cons_append, ← hcc]
    simp only [hmain, hval, Option.map_some', Bool.false_eq_true, if_false]
    rw [Int.cast_natAbs, abs_of_nonneg hpos]
    rw [Rat.num_div_den]

theorem parseDecCore_roundtrip (cs : List Char) (q : ℚ) (h : parseDecCore cs = some q) :
    parseDecCore (printRat q) = some q :=
  parseDecCore_printRat q (parseDecCore_den_dvd cs q h)

theorem pyStr_num (q : ℚ) : pyStr (.num q) = String.mk (printRat q) := by
  simp [pyStr, pyRepr]

theorem toNumericCoerce_num (q : ℚ) (hq : q.den ∣ 10 ^ q.den) :
    toNumericCoerce (.num q) = .num q := by
  rw [toNumericCoerce, pyStr_num]
  have hfilter : (String.mk (printRat q)).data.filter (fun c => c ≠ quoteChar) = printRat q := by
    apply List.filter_eq_self.mpr
    intro c hc
    exact decide_eq_true (printRat_not_quote q c hc)
  rw [hfilter, pyStripBoth, stripEnds_no_op pySpace _ (printRat_not_space q)]
  rw [parseDecCore_printRat q hq]

theorem upload_transform_eq (numCols : List String) (fill : PyVal) (t : Table) :
    upload_transform numCols fill t =
      t.map (fun col =>
        (col.1, col.2.map (if col.1 ∈ numCols then cellNum fill else cellOth fill))) := by
  rw [upload_transform, passNumeric, passMap, passMap, passMap]
  rw [List.map_map, List.map_map, List.map_map]
  apply List.map_congr_left
  intro col _
  simp only [Function.comp]
  split
  · simp [List.map_map, cellNum, Function.comp]
  · simp [List.map_map, cellOth, Function.comp]

theorem toNumericCoerce_cases (v : PyVal) :
    (∃ q, toNumericCoerce v = .num q ∧ parseDecCore (printRat q) = some q) ∨
      toNumericCoerce v = .none := by
  rw [toNumericCoerce]
  cases h : parseDecCore (pyStripBoth ((pyStr v).data.filter (fun c => c ≠ quoteChar))) with
  | none => exact Or.inr rfl
  | some q => exact Or.inl ⟨q, rfl, parseDecCore_roundtrip _ q h⟩

theorem toNumericCoerce_zero : toNumericCoerce (.num 0) = .num 0 := by
  apply toNumericCoerce_num
  norm_num

theorem toNumericCoerce_empty : toNumericCoerce (.str "") = .none := rfl

theorem cellNum_idem (fill : PyVal) (hfill : fill = .num 0 ∨ fill = .str "") (v : PyVal) :
    cellNum fill (cellNum fill v) = cellNum fill v := by
  rcases toNumericCoerce_cases v with ⟨q, hv, hrt⟩ | hv
  · have hout : cellNum fill v = .num q := by
      simp [cellNum, hv, replaceNan, dumpsObjs]
    rw [hout]
    have hcoerce : toNumericCoerce (.num q) = .num q :=
      toNumericCoerce_num q (parseDecCore_den_dvd _ q hrt)
    simp [cellNum, hcoerce, replaceNan, dumpsObjs, hout]
  · rcases hfill with h0 | h0 <;> subst h0
    · have hout : cellNum (.num 0) v = .num 0 := by
        simp [cellNum, hv, replaceNan, dumpsObjs]
      rw [hout]
      simp [cellNum, toNumericCoerce_zero, replaceNan, dumpsObjs, hout]
    · have hout : cellNum (.str "") v = .str "" := by
        simp [cellNum, hv, replaceNan, dumpsObjs]
      rw [hout]
      simp [cellNum, toNumericCoerce_empty, replaceNan, dumpsObjs, hout]

theorem cellOth_idem (fill : PyVal) (hfill : fill = .num 0 ∨ fill = .str "") (v : PyVal) :
    cellOth fill (cellOth fill v) = cellOth fill v := by
  rcases hfill with h0 | h0 <;> subst h0 <;>
    cases v <;> simp [cellOth, replaceNan, dumpsObjs]

set_option maxHeartbeats 1000000 in
theorem upload_transform_idem (numCols : List String) (fill : PyVal)
    (hfill : fill = .num 0 ∨ fill = .str "") (t : Table) :
    upload_transform numCols fill (upload_transform numCols fill t) =
      upload_transform numCols fill t := by
  rw [upload_transform_eq, upload_transform_eq, List.map_map]
  apply List.map_congr_left
  intro col _
  cases col with
  | mk name cells =>
    by_cases hmem : name ∈ numCols
    · simp only [hmem, if_true, Function.comp_apply, List.map_map]
      congr 1
      apply List.map_congr_left
      intro v _
      simp only [Function.comp_apply]
      exact cellNum_idem fill hfill v
    · simp only [hmem, if_false, Function.comp_apply, List.map_map]
      congr 1
      apply List.map_congr_left
      intro v _
      simp only [Function.comp_apply]
      exact cellOth_idem fill hfill v

theorem round2_zero : round2 0 = 0 := by
  norm_num [round2, roundHalfEven]

theorem roundHalfEven_nonneg (x : ℚ) (hx : 0 ≤ x) : 0 ≤ roundHalfEven x := by
  have hf : (0 : ℤ) ≤ ⌊x⌋ := Int.floor_nonneg.mpr hx
  rw [roundHalfEven]
  split
  · exact hf
  · split
    · omega
    · split <;> omega

theorem round2_nonneg (x : ℚ) (hx : 0 ≤ x) : 0 ≤ round2 x := by
  rw [round2]
  have := roundHalfEven_nonneg (x * 100) (by positivity)
  positivity

theorem pyFloat_of_falsy (v : PyVal) (h : pyFalsy v = true) : (pyFloat v).getD 0 = 0 := by
  cases v with
  | none => rfl
  | bool b =>
    simp only [pyFalsy, Bool.not_eq_true'] at h
    subst h
    rfl
  | num q =>
    simp only [pyFalsy, decide_eq_true_eq] at h
    subst h
    rfl
  | str s =>
    simp only [pyFalsy, List.isEmpty_iff] at h
    have : s = "" := by
      cases s
      simp_all
    subst this
    rfl
  | list xs =>
    rfl
  | dict kvs =>
    rfl

theorem pyFloat_orZero_some (v : PyVal) (q : ℚ) (h : pyFloat (orZero v) = some q) :
    (pyFloat v).getD 0 = q := by
  by_cases hf : pyFalsy v = true
  · rw [orZero, if_pos hf] at h
    have hq0 : q = 0 := by
      simp [pyFloat] at h
      exact h.symm
    rw [hq0]
    exact pyFloat_of_falsy v hf
  · rw [orZero, if_neg hf] at h
    rw [h]
    rfl

theorem pyFloat_orZero_none (v : PyVal) (h : pyFloat (orZero v) = Option.none) :
    (pyFloat v).getD 0 = 0 := by
  by_cases hf : pyFalsy v = true
  · rw [orZero, if_pos hf] at h
    simp [pyFloat] at h
  · rw [orZero, if_neg hf] at h
    rw [h]
    rfl

theorem calcular_cliques_eq_spec (row : Row) :
    calcular_cliques row =
      if 0 < readNum row "cpc" then round2 (readNum row "spend" / readNum row "cpc") else 0 := by
  rw [calcular_cliques, readNum, readNum]
  split
  · rename_i heq1
    rw [pyFloat_orZero_none _ heq1, zero_div, round2_zero]
    split <;> rfl
  · rename_i spend heq1
    rw [pyFloat_orZero_some _ _ heq1]
    split
    · rename_i heq2
      rw [pyFloat_orZero_none _ heq2]
      norm_num
    · rename_i cpc heq2
      rw [pyFloat_orZero_some _ _ heq2]

theorem campaignsLoop_acc (fi : String → String → String → Except String (List Row))
    (since untl : String) (camps : List Campaign) :
    ∀ acc, campaignsLoop fi since untl camps acc = acc ++ campaignsLoop fi since untl camps [] := by
  induction camps with
  | nil => intro acc; simp [campaignsLoop]
  | cons c cs ih =>
    intro acc
    rw [campaignsLoop, campaignsLoop]
    cases fi c.id since untl with
    | error e => simp
    | ok ins =>
      dsimp only
      rw [ih (acc ++ ins.map (ensureName c.name)), ih ([] ++ ins.map (ensureName c.name))]
      simp

theorem periodStep_acc (fc : String → String → Except String (List Campaign))
    (fi : String → String → String → Except String (List Row)) (acc : List Row) (p : Period) :
    periodStep fc fi acc p = acc ++ periodStep fc fi [] p := by
  rw [periodStep, periodStep]
  cases fc p.since p.«until» with
  | error e => simp
  | ok camps =>
    dsimp only
    exact campaignsLoop_acc fi _ _ camps acc

theorem get_all_data_eq (fc : String → String → Except String (List Campaign))
    (fi : String → String → String → Except String (List Row)) (year : Nat) :
    get_all_data fc fi year =
      ((get_month_ranges year).map (fun p => periodStep fc fi [] p)).flatten := by
  rw [get_all_data]
  generalize get_month_ranges year = ps
  induction ps using List.reverseRecOn with
  | nil => rfl
  | append_singleton ps p ih =>
    rw [List.foldl_append, List.map_append, List.flatten_append, List.foldl_cons, List.foldl_nil, ih]
    rw [periodStep_acc]
    simp

theorem dash_not_digit : ('-').isDigit = false := by decide

theorem parseDate_fmtDate (y m d : Nat) : parseDate (fmtDate y m d) = (y, m, d) := by
  have hy := padZeros_digits 4 _ (natToChars_digits y)
  have hm := padZeros_digits 2 _ (natToChars_digits m)
  have hd := padZeros_digits 2 _ (natToChars_digits d)
  rw [parseDate, fmtDate]
  have e1 : (String.mk (padZeros 4 (natToChars y) ++
      '-' :: (padZeros 2 (natToChars m) ++ '-' :: padZeros 2 (natToChars d)))).data =
      padZeros 4 (natToChars y) ++
        '-' :: (padZeros 2 (natToChars m) ++ '-' :: padZeros 2 (natToChars d)) := rfl
  rw [e1]
  rw [takeWhile_append_stop Char.isDigit _ _ '-' hy dash_not_digit,
    dropWhile_append_stop Char.isDigit _ _ '-' hy dash_not_digit]
  rw [List.drop_one, List.tail_cons]
  rw [takeWhile_append_stop Char.isDigit _ _ '-' hm dash_not_digit,
    dropWhile_append_stop Char.isDigit _ _ '-' hm dash_not_digit]
  rw [List.drop_one, List.tail_cons]
  rw [takeWhile_all _ _ hd]
  rw [digitsToNat_padZeros, digitsToNat_padZeros, digitsToNat_padZeros,
    digitsToNat_natToChars_zero, digitsToNat_natToChars_zero, digitsToNat_natToChars_zero]

theorem get_month_ranges_eq (y : Nat) :
    get_month_ranges y =
      [⟨fmtDate y 1 1, fmtDate y 1 31⟩,
       ⟨fmtDate y 2 1, fmtDate y 2 (if isLeap y then 29 else 28)⟩,
       ⟨fmtDate y 3 1, fmtDate y 3 31⟩,
       ⟨fmtDate y 4 1, fmtDate y 4 30⟩,
       ⟨fmtDate y 5 1, fmtDate y 5 31⟩,
       ⟨fmtDate y 6 1, fmtDate y 6 30⟩,
       ⟨fmtDate y 7 1, fmtDate y 7 31⟩,
       ⟨fmtDate y 8 1, fmtDate y 8 31⟩,
       ⟨fmtDate y 9 1, fmtDate y 9 30⟩,
       ⟨fmtDate y 10 1, fmtDate y 10 31⟩,
       ⟨fmtDate y 11 1, fmtDate y 11 30⟩,
       ⟨fmtDate y 12 1, fmtDate y 12 31⟩] := by
  rw [get_month_ranges]
  rw [show List.range 12 = [0, 1, 2, 3, 4, 5, 6, 7, 8, 9, 10, 11] from rfl]
  simp only [List.map_cons, List.map_nil]
  norm_num [prevDay, daysInMonth, isLeap]

theorem cellNum_eq_coerceIdg (v : PyVal) : cellNum (.num 0) v = coerceIdg v := by
  rw [cellNum, coerceIdg, toNumericCoerce]
  cases parseDecCore (pyStripBoth ((pyStr v).data.filter (fun c => c ≠ quoteChar))) with
  | none => rfl
  | some q => rfl

theorem cellNum_eq_coerceApp (v : PyVal) : cellNum (.str "") v = coerceApp v := by
  rw [cellNum, coerceApp, toNumericCoerce]
  cases parseDecCore (pyStripBoth ((pyStr v).data.filter (fun c => c ≠ quoteChar))) with
  | none => rfl
  | some q => rfl

theorem extract_idg_num (q : ℚ) : extract_numeric_value_idg (.num q) = .none := by
  by_cases h0 : q = 0
  · subst h0
    rfl
  · have hstrip : pyStripBoth (pyStr (.num q)).data = printRat q := by
      rw [pyStr_num]
      exact stripEnds_no_op pySpace _ (printRat_not_space q)
    rw [extract_numeric_value_idg, if_neg]
    · rfl
    · rw [hstrip]
      simp [pyFalsy, h0, List.isEmpty_iff, printRat_ne_nil q]

/-- C1: the claim states that `extract_numeric_value` always returns a
finite number or `None`, never a raw structure or unconverted malformed
string.  The code violates this: on the indicator list whose first value
is the non-numeric string `abc`, both variants return the raw string
`abc` itself (the `except: return val` fallback), which is neither a
number nor `None`.  The spec's own §9 records this fallback as a bug to
fix, so the claim is the intent and the code is wrong. -/
theorem extract_numeric_value_raw_fallback_bug :
    extract_numeric_value_app
        (.list [.dict [("values", .list [.dict [("value", .str "abc")]])]]) = .str "abc" ∧
    extract_numeric_value_idg
        (.list [.dict [("values", .list [.dict [("value", .str "abc")]])]]) = .str "abc" ∧
    PyVal.str "abc" ≠ .none ∧ (∀ q : ℚ, PyVal.str "abc" ≠ .num q) :=
  ⟨rfl, by with_unfolding_all rfl, nofun, fun q => nofun⟩

/-- C2 counterexample: the claim states that an already-numeric input is
passed through as the resulting number, so `extract_numeric_value(5)`
would have to be `5`; in both variants it is `None` instead (`app.py`
falls through its `isinstance` chain, `idadeGenero.py` parses only
string inputs and a number is not a list). -/
theorem extract_numeric_value_no_passthrough :
    extract_numeric_value_app (.num 5) = .none ∧
    extract_numeric_value_idg (.num 5) = .none ∧
    PyVal.none ≠ .num 5 :=
  ⟨rfl, by with_unfolding_all rfl, nofun⟩

/-- C2 amended: an already-numeric input (an int or float, not a string
or list) is not passed through: `extract_numeric_value` returns the
absence marker `None` for every numeric input, in both variants. -/
theorem extract_numeric_value_numeric_input_absent (q : ℚ) :
    extract_numeric_value_app (.num q) = .none ∧
    extract_numeric_value_idg (.num q) = .none :=
  ⟨rfl, extract_idg_num q⟩

/-- C3: for a string input that is a valid literal encoding of a
non-empty indicator-object list, `extract_numeric_value` parses it as
literal data, takes element 0 of the list, element 0 of that object's
`values` sequence, reads its `value` field and applies the
comma-to-decimal-point numeric conversion (`floatOfComma`); in
particular both variants map `"[{'values':[{'value':'12,5'}]}]"` to
`12.5`. -/
theorem extract_numeric_value_literal_list (s : String)
    (kvs kvs2 : List (String × PyVal)) (rest rest2 : List PyVal) (val : PyVal)
    (hv : literalEval s = .ok (.list (.dict kvs :: rest)))
    (hvals : dictGet kvs "values" = some (.list (.dict kvs2 :: rest2)))
    (hval : dictGet kvs2 "value" = some val) :
    extract_numeric_value_app (.str s) = floatOfComma val ∧
    extract_numeric_value_app
        (.str "[\x7b'values':[\x7b'value':'12,5'\x7d]\x7d]") = .num (25 / 2) ∧
    extract_numeric_value_idg
        (.str "[\x7b'values':[\x7b'value':'12,5'\x7d]\x7d]") = .num (25 / 2) := by
  refine ⟨?_, by with_unfolding_all rfl, by with_unfolding_all rfl⟩
  rw [extract_numeric_value_app, hv]
  dsimp only
  rw [extractFromParsed]
  dsimp only
  rw [hvals]
  dsimp only
  rw [hval]
  rfl

/-- C3 witness: the general part of the theorem applied to the concrete
string of the claim, every hypothesis discharged by evaluation. -/
theorem extract_numeric_value_literal_list_witness :
    extract_numeric_value_app
        (.str "[\x7b'values':[\x7b'value':'12,5'\x7d]\x7d]") = floatOfComma (.str "12,5") :=
  (extract_numeric_value_literal_list "[\x7b'values':[\x7b'value':'12,5'\x7d]\x7d]"
    [("values", .list [.dict [("value", .str "12,5")]])] [("value", .str "12,5")]
    [] [] (.str "12,5") rfl rfl rfl).1

/-- C4: for every calendar year, `get_month_ranges` returns exactly 12
`{since, until}` pairs in chronological month order, formatted
`YYYY-MM-DD`, with `since` the first and `until` the last calendar day
of each month; consecutive ranges are adjacent (the day after one
range's `until` is the next range's `since`), so the ranges cover
January 1 through December 31 with no gaps or overlaps; and
`get_month_ranges 2024` contains the leap-year February range. -/
theorem get_month_ranges_correct (y : Nat) :
    (get_month_ranges y).length = 12 ∧
    get_month_ranges y =
      [⟨fmtDate y 1 1, fmtDate y 1 (daysInMonth y 1)⟩,
       ⟨fmtDate y 2 1, fmtDate y 2 (daysInMonth y 2)⟩,
       ⟨fmtDate y 3 1, fmtDate y 3 (daysInMonth y 3)⟩,
       ⟨fmtDate y 4 1, fmtDate y 4 (daysInMonth y 4)⟩,
       ⟨fmtDate y 5 1, fmtDate y 5 (daysInMonth y 5)⟩,
       ⟨fmtDate y 6 1, fmtDate y 6 (daysInMonth y 6)⟩,
       ⟨fmtDate y 7 1, fmtDate y 7 (daysInMonth y 7)⟩,
       ⟨fmtDate y 8 1, fmtDate y 8 (daysInMonth y 8)⟩,
       ⟨fmtDate y 9 1, fmtDate y 9 (daysInMonth y 9)⟩,
       ⟨fmtDate y 10 1, fmtDate y 10 (daysInMonth y 10)⟩,
       ⟨fmtDate y 11 1, fmtDate y 11 (daysInMonth y 11)⟩,
       ⟨fmtDate y 12 1, fmtDate y 12 (daysInMonth y 12)⟩] ∧
    List.Chain' (fun a b => parseDate b.since = nextDay (parseDate a.«until»))
      (get_month_ranges y) ∧
    (⟨"2024-02-01", "2024-02-29"⟩ : Period) ∈ get_month_ranges 2024 := by
  refine ⟨by rw [get_month_ranges_eq y]; rfl, ?_, ?_, by decide⟩
  · rw [get_month_ranges_eq y]
    norm_num [daysInMonth]
  · rw [get_month_ranges_eq y]
    simp only [List.chain'_cons, List.chain'_singleton, and_true]
    refine ⟨?_, ?_, ?_, ?_, ?_, ?_, ?_, ?_, ?_, ?_, ?_⟩ <;>
      norm_num [parseDate_fmtDate, nextDay, daysInMonth]

/-- C5: `calcular_cliques` equals `round(spend / cpc, 2)` when `cpc > 0`
and `0` otherwise, where `spend` and `cpc` are read as numbers
defaulting to `0` when absent or non-numeric (`readNum`), no error
escapes, and the two concrete examples of the claim hold. -/
theorem calcular_cliques_spec (row : Row) :
    calcular_cliques row =
      (if 0 < readNum row "cpc" then round2 (readNum row "spend" / readNum row "cpc")
       else 0) ∧
    calcular_cliques [("spend", .num 100), ("cpc", .num 2)] = 50 ∧
    calcular_cliques [("spend", .num 100), ("cpc", .num 0)] = 0 :=
  ⟨calcular_cliques_eq_spec row, by with_unfolding_all rfl, by with_unfolding_all rfl⟩

/-- C6 counterexample: the claim asserts non-negativity for every row
with no precondition on the sign of `spend`; for `spend = -100`,
`cpc = 2` the code returns `-50`, which is negative. -/
theorem calcular_cliques_negative :
    calcular_cliques [("spend", .num (-100)), ("cpc", .num 2)] = -50 ∧
    ((-50 : ℚ) < 0) :=
  ⟨by with_unfolding_all rfl, by norm_num⟩

/-- C6 amended: the output of `calcular_cliques` is always a number
(never absent, by its type) and is non-negative whenever the row's
`spend` field reads as a non-negative number (as every real spend value
from the API does); negativity can only arise from a negative `spend`
input. -/
theorem calcular_cliques_nonneg (row : Row) (h : 0 ≤ readNum row "spend") :
    0 ≤ calcular_cliques row := by
  rw [calcular_cliques_eq_spec]
  split
  · rename_i hcpc
    exact round2_nonneg _ (div_nonneg h (le_of_lt hcpc))
  · exact le_refl 0

/-- C6 witness: the amended theorem applied to a concrete row. -/
theorem calcular_cliques_nonneg_witness :
    0 ≤ readNum [("spend", PyVal.num 100), ("cpc", PyVal.num 2)] "spend" ∧
    0 ≤ calcular_cliques [("spend", PyVal.num 100), ("cpc", PyVal.num 2)] := by
  have h : (0 : ℚ) ≤ readNum [("spend", PyVal.num 100), ("cpc", PyVal.num 2)] "spend" := by
    have he : readNum [("spend", PyVal.num 100), ("cpc", PyVal.num 2)] "spend" = 100 := by
      with_unfolding_all rfl
    rw [he]
    norm_num
  exact ⟨h, calcular_cliques_nonneg _ h⟩

/-- C7: in both table-assembler variants, every column of the designated
numeric set that is present in the table has each cell stringified with
residual quote characters stripped and coerced to a number, a coercion
failure being replaced by the variant's fill value (`0` in
`idadeGenero.py`, `""` in `app.py`); `app.py` designates the first six
columns, `idadeGenero.py` all eight. -/
theorem upload_numeric_columns (t : Table) (name : String) (cells : List PyVal)
    (hmem : (name, cells) ∈ t) :
    (name ∈ colsNumericasIdg → (name, cells.map coerceIdg) ∈ upload_transform_idg t) ∧
    (name ∈ colsNumericasApp → (name, cells.map coerceApp) ∈ upload_transform_app t) := by
  constructor
  · intro hcol
    rw [upload_transform_idg, upload_transform_eq]
    have hmm := List.mem_map_of_mem
      (f := fun col => (col.1,
        col.2.map (if col.1 ∈ colsNumericasIdg then cellNum (.num 0) else cellOth (.num 0))))
      hmem
    simp only at hmm
    rw [if_pos hcol] at hmm
    have hcells : cells.map (cellNum (.num 0)) = cells.map coerceIdg :=
      List.map_congr_left (fun v _ => cellNum_eq_coerceIdg v)
    rw [hcells] at hmm
    exact hmm
  · intro hcol
    rw [upload_transform_app, upload_transform_eq]
    have hmm := List.mem_map_of_mem
      (f := fun col => (col.1,
        col.2.map (if col.1 ∈ colsNumericasApp then cellNum (.str "") else cellOth (.str ""))))
      hmem
    simp only at hmm
    rw [if_pos hcol] at hmm
    have hcells : cells.map (cellNum (.str "")) = cells.map coerceApp :=
      List.map_congr_left (fun v _ => cellNum_eq_coerceApp v)
    rw [hcells] at hmm
    exact hmm

/-- C7 witness: the theorem applied to a one-column table for each
variant, with the hypotheses evaluated away. -/
theorem upload_numeric_columns_witness :
    ("results_value", [PyVal.str "12.5", PyVal.str "x"].map coerceIdg) ∈
      upload_transform_idg [("results_value", [PyVal.str "12.5", PyVal.str "x"])] ∧
    ("spend", [PyVal.str "12.5", PyVal.str "x"].map coerceApp) ∈
      upload_transform_app [("spend", [PyVal.str "12.5", PyVal.str "x"])] :=
  ⟨(upload_numeric_columns _ _ _ (List.mem_singleton.mpr rfl)).1 (by decide),
   (upload_numeric_columns _ _ _ (List.mem_singleton.mpr rfl)).2 (by decide)⟩

/-- C8: both table-assembler variants are idempotent: applying the
transformation twice to any table yields the same table as applying it
once (no well-formedness restriction is even needed). -/
theorem upload_transform_idempotent (t : Table) :
    upload_transform_idg (upload_transform_idg t) = upload_transform_idg t ∧
    upload_transform_app (upload_transform_app t) = upload_transform_app t :=
  ⟨upload_transform_idem _ _ (Or.inl rfl) t, upload_transform_idem _ _ (Or.inr rfl) t⟩

/-- C9 counterexample: the claim says a period whose fetch raises
contributes no rows.  With the concrete oracles `fcX`/`fiX`, the
insights fetch for campaign `c2` raises inside the period's `try`
block, yet the period contributes the row appended for campaign `c1`
before the failure — a non-empty partial contribution. -/
theorem periodStep_partial_contribution :
    fiX "c2" "2025-01-01" "2025-01-31" = .error "boom" ∧
    periodStep fcX fiX [] ⟨"2025-01-01", "2025-01-31"⟩ =
      [[("campaign_name", PyVal.str "n1")]] :=
  ⟨rfl, rfl⟩

/-- C9 amended: `get_all_data` is the concatenation of independent
per-period contributions, so a failing period never aborts the run nor
discards other periods' rows; a period whose campaign-list fetch raises
contributes no rows, while a failing insights fetch leaves the rows
appended earlier in that period in place (partial contribution). -/
theorem get_all_data_period_isolation
    (fc : String → String → Except String (List Campaign))
    (fi : String → String → String → Except String (List Row)) (year : Nat) :
    get_all_data fc fi year =
      ((get_month_ranges year).map (fun p => periodStep fc fi [] p)).flatten ∧
    (∀ p e, fc p.since p.«until» = .error e → periodStep fc fi [] p = []) := by
  refine ⟨get_all_data_eq fc fi year, ?_⟩
  intro p e h
  rw [periodStep, h]

/-- C9 witness: the amended theorem applied to a concrete failing
campaign fetch. -/
theorem get_all_data_period_isolation_witness :
    periodStep (fun _ _ => Except.error "down") fiX [] ⟨"2025-01-01", "2025-01-31"⟩ = [] :=
  (get_all_data_period_isolation (fun _ _ => Except.error "down") fiX 2025).2
    ⟨"2025-01-01", "2025-01-31"⟩ "down" rfl

/-- C10: in the demographic-breakdown variant, `extract_numeric_value`
returns the absence marker for every falsy input — in particular for
the number 0, for `False` and for the empty list — so a genuine metric
value of 0 is reported as absent rather than as the number 0. -/
theorem extract_idg_falsy_absent (v : PyVal) (h : pyFalsy v = true) :
    extract_numeric_value_idg v = .none ∧
    extract_numeric_value_idg (.num 0) = .none ∧
    extract_numeric_value_idg (.bool false) = .none ∧
    extract_numeric_value_idg (.list []) = .none ∧
    PyVal.none ≠ .num 0 := by
  refine ⟨?_, rfl, rfl, rfl, nofun⟩
  rw [extract_numeric_value_idg, if_pos]
  rw [h]
  rfl

/-- C10 witness: the theorem applied to the input 0. -/
theorem extract_idg_falsy_absent_witness :
    pyFalsy (.num 0) = true ∧ extract_numeric_value_idg (.num 0) = .none :=
  ⟨rfl, (extract_idg_falsy_absent (.num 0) rfl).1⟩
